import Mathlib

/-!
Shallow embedding of the fedora-coreos-cincinnati graph builder.

Source files embedded:
* `commons/src/graph.rs` — `Graph::from_metadata`, `Graph::compute_edges`,
  the metadata-injection helpers, and the data types they use.
* `fcos-graph-builder/src/main.rs` — the `gb_serve_graph` request handler.

Rust `HashMap<String, String>` metadata is modelled as an association list
with front-insertion: `mdLookup` returns the most recently inserted value
for a key, which matches `HashMap::insert` overwrite semantics for every
observation the code performs (`get` / `contains_key`).
Rust `Fallible<T>` is modelled as `Except String T`.
-/

namespace Fcc

/-- Metadata key for the release age rank (`metadata::AGE_INDEX`). -/
def AGE_INDEX : String := "org.fedoraproject.coreos.releases.age_index"

/-- Metadata key for the payload scheme (`metadata::SCHEME`). -/
def SCHEME : String := "org.fedoraproject.coreos.scheme"

/-- Metadata key for the deadend marker (`metadata::DEADEND`). -/
def DEADEND : String := "org.fedoraproject.coreos.updates.deadend"

/-- Metadata key for the deadend reason (`metadata::DEADEND_REASON`). -/
def DEADEND_REASON : String := "org.fedoraproject.coreos.updates.deadend_reason"

/-- Metadata key for the barrier marker (`metadata::BARRIER`). -/
def BARRIER : String := "org.fedoraproject.coreos.updates.barrier"

/-- Metadata key for the barrier reason (`metadata::BARRIER_REASON`). -/
def BARRIER_REASON : String := "org.fedoraproject.coreos.updates.barrier_reason"

/-- Metadata key for the rollout marker (`metadata::ROLLOUT`). -/
def ROLLOUT : String := "org.fedoraproject.coreos.updates.rollout"

/-- Metadata key for the rollout start epoch (`metadata::START_EPOCH`). -/
def START_EPOCH : String := "org.fedoraproject.coreos.updates.start_epoch"

/-- Metadata key for the rollout start percentage (`metadata::START_VALUE`). -/
def START_VALUE : String := "org.fedoraproject.coreos.updates.start_value"

/-- Metadata key for the rollout duration (`metadata::DURATION`). -/
def DURATION : String := "org.fedoraproject.coreos.updates.duration_minutes"

/-- Per-architecture ostree commit of a release (`metadata::Commit`). -/
structure Commit where
  architecture : String
  checksum : String
deriving DecidableEq, Repr

/-- Per-architecture OCI image of a release (`metadata::OciImage`). -/
structure OciImage where
  architecture : String
  digest_ref : String
deriving DecidableEq, Repr

/-- Release entry of the upstream release index (`metadata::Release`). -/
structure Release where
  version : String
  commits : List Commit
  oci_images : Option (List OciImage)
deriving DecidableEq, Inhabited, Repr

/-- Rollout directive of the updates document (`metadata::UpdateRollout`).
The numeric values are only ever rendered with `to_string` by the embedded
code, so they are carried here already in rendered form. -/
structure UpdateRollout where
  start_epoch : Option String
  start_percentage : Option String
  duration_minutes : Option String
deriving DecidableEq, Repr

/-- Barrier directive of the updates document (`metadata::UpdateBarrier`). -/
structure UpdateBarrier where
  reason : String
deriving DecidableEq, Repr

/-- Deadend directive of the updates document (`metadata::UpdateDeadend`). -/
structure UpdateDeadend where
  reason : String
deriving DecidableEq, Repr

/-- Per-release metadata of the updates document (`metadata::UpdateMetadata`). -/
structure UpdateMetadata where
  barrier : Option UpdateBarrier
  deadend : Option UpdateDeadend
  rollout : Option UpdateRollout
deriving DecidableEq, Repr

/-- Release entry of the updates document (`metadata::UpdateRelease`). -/
structure UpdateRelease where
  version : String
  metadata : UpdateMetadata
deriving DecidableEq, Repr

/-- Whole updates document (`metadata::UpdatesJSON`). -/
structure UpdatesJSON where
  releases : List UpdateRelease
deriving DecidableEq, Repr

/-- Metadata map insert, modelling `HashMap::insert` (overwrite) through the
first-match lookup below. -/
def mdInsert (m : List (String × String)) (k v : String) : List (String × String) :=
  (k, v) :: m

/-- Metadata map lookup, modelling `HashMap::get`. -/
def mdLookup (m : List (String × String)) (k : String) : Option String :=
  match m with
  | [] => none
  | (k2, v) :: rest => if k2 = k then some v else mdLookup rest k

/-- Metadata key test, modelling `HashMap::contains_key`. -/
def mdContains (m : List (String × String)) (k : String) : Bool :=
  (mdLookup m k).isSome

/-- Single release entry in the Cincinnati update-graph (`CincinnatiPayload`). -/
structure CincinnatiPayload where
  version : String
  metadata : List (String × String)
  payload : String
deriving DecidableEq, Inhabited, Repr

/-- Cincinnati update-graph (`Graph`): releases (nodes) and update paths (edges). -/
structure Graph where
  nodes : List CincinnatiPayload
  edges : List (Nat × Nat)
deriving DecidableEq, Inhabited, Repr

/-- Scope of a cached graph (`GraphScope`). -/
structure GraphScope where
  basearch : String
  stream : String
  oci : Bool
deriving DecidableEq, Repr

/-- Loop body of `Graph::inject_barrier_reason`: on a version match with a
barrier directive, record the barrier marker and its reason. -/
def barrierStep (rel : CincinnatiPayload) (entry : UpdateRelease) : CincinnatiPayload :=
  if entry.version ≠ rel.version then rel
  else
    match entry.metadata.barrier with
    | none => rel
    | some barrier =>
      let reason := if barrier.reason = "" then "generic" else barrier.reason
      { rel with
        metadata := mdInsert (mdInsert rel.metadata BARRIER "true") BARRIER_REASON reason }

/-- Embeds `Graph::inject_barrier_reason`: apply `barrierStep` over the whole
updates document. -/
def injectBarrierReason (updates : UpdatesJSON) (release : CincinnatiPayload) :
    CincinnatiPayload :=
  updates.releases.foldl barrierStep release

/-- Loop body of `Graph::inject_deadend_reason`: on a version match with a
deadend directive, record the deadend marker and its reason. -/
def deadendStep (rel : CincinnatiPayload) (entry : UpdateRelease) : CincinnatiPayload :=
  if entry.version ≠ rel.version then rel
  else
    match entry.metadata.deadend with
    | none => rel
    | some deadend =>
      let reason := if deadend.reason = "" then "generic" else deadend.reason
      { rel with
        metadata := mdInsert (mdInsert rel.metadata DEADEND "true") DEADEND_REASON reason }

/-- Embeds `Graph::inject_deadend_reason`: apply `deadendStep` over the whole
updates document. -/
def injectDeadendReason (updates : UpdatesJSON) (release : CincinnatiPayload) :
    CincinnatiPayload :=
  updates.releases.foldl deadendStep release

/-- Loop body of `Graph::inject_throttling_params`: on a version match with a
rollout directive, record the rollout marker and its optional fields. -/
def throttlingStep (rel : CincinnatiPayload) (entry : UpdateRelease) : CincinnatiPayload :=
  if entry.version ≠ rel.version then rel
  else
    match entry.metadata.rollout with
    | none => rel
    | some rollout =>
      let m1 := mdInsert rel.metadata ROLLOUT "true"
      let m2 := match rollout.start_epoch with
        | some val => mdInsert m1 START_EPOCH val
        | none => m1
      let m3 := match rollout.start_percentage with
        | some val => mdInsert m2 START_VALUE val
        | none => m2
      let m4 := match rollout.duration_minutes with
        | some val => mdInsert m3 DURATION val
        | none => m3
      { rel with metadata := m4 }

/-- Embeds `Graph::inject_throttling_params`: apply `throttlingStep` over the
whole updates document. -/
def injectThrottlingParams (updates : UpdatesJSON) (release : CincinnatiPayload) :
    CincinnatiPayload :=
  updates.releases.foldl throttlingStep release

/-- One step of the commit scan inside `Graph::from_metadata`: skip commits of
another architecture or with an empty checksum, otherwise take the checksum as
payload and record the checksum scheme. -/
def commitStep (scope : GraphScope) (acc : CincinnatiPayload × Bool) (commit : Commit) :
    CincinnatiPayload × Bool :=
  if commit.architecture ≠ scope.basearch ∨ commit.checksum = "" then acc
  else
    ({ acc.1 with
        payload := commit.checksum
        metadata := mdInsert acc.1.metadata SCHEME "checksum" },
      true)

/-- One step of the OCI-image scan inside `Graph::from_metadata`: skip images of
another architecture or with an empty digest, otherwise take the digest as
payload and record the OCI scheme. -/
def ociStep (scope : GraphScope) (acc : CincinnatiPayload × Bool) (img : OciImage) :
    CincinnatiPayload × Bool :=
  if img.architecture ≠ scope.basearch ∨ img.digest_ref = "" then acc
  else
    ({ acc.1 with
        payload := img.digest_ref
        metadata := mdInsert acc.1.metadata SCHEME "oci" },
      true)

/-- Initial node of the `filter_map` body of `Graph::from_metadata`: empty
payload and only the `age_index` metadata entry. -/
def initialNode (age_index : Nat) (entry : Release) : CincinnatiPayload :=
  { version := entry.version
    payload := ""
    metadata := mdInsert [] AGE_INDEX (toString age_index) }

/-- Final augmentation of the `filter_map` body of `Graph::from_metadata`:
deadend, then barrier, then rollout metadata. -/
def augmentNode (updates : UpdatesJSON) (cur : CincinnatiPayload) : CincinnatiPayload :=
  injectThrottlingParams updates (injectBarrierReason updates
    (injectDeadendReason updates cur))

/-- The `filter_map` body of `Graph::from_metadata`: build the node for one
release, or `none` when the release has no payload for the scope. The pair
components carry the mutable locals `current` and `has_basearch`; a release
whose OCI list is absent under an OCI scope is an early `return None`. -/
def processRelease (scope : GraphScope) (updates : UpdatesJSON) (age_index : Nat)
    (entry : Release) : Option CincinnatiPayload :=
  if scope.oci then
    match entry.oci_images with
    | some oci_images =>
      let scanned := oci_images.foldl (ociStep scope) (initialNode age_index entry, false)
      if scanned.2 then some (augmentNode updates scanned.1) else none
    | none => none
  else
    let scanned := entry.commits.foldl (commitStep scope) (initialNode age_index entry, false)
    if scanned.2 then some (augmentNode updates scanned.1) else none

/-- Indices of rollout-marked nodes, ascending (the `rollouts` BTreeSet of
`Graph::compute_edges`). -/
def collectRollouts (nodes : List CincinnatiPayload) : List Nat :=
  (List.range nodes.length).filter
    (fun index => mdContains (nodes.getD index default).metadata ROLLOUT)

/-- Indices of barrier-marked nodes, ascending (the `barriers` BTreeSet of
`Graph::compute_edges`). -/
def collectBarriers (nodes : List CincinnatiPayload) : List Nat :=
  (List.range nodes.length).filter
    (fun index => mdContains (nodes.getD index default).metadata BARRIER)

/-- Largest barrier index strictly below `age`, or 0 when none exists
(`barriers.range((Unbounded, Excluded(age))).next_back().unwrap_or(0)`). -/
def prevBarrier (barriers : List Nat) (age : Nat) : Nat :=
  (barriers.filter (fun b => b < age)).foldr Nat.max 0

/-- Edges pushed for one rollout target: one edge from every index from the
previous barrier up to (excluding) the target. -/
def rolloutEdgesTo (barriers : List Nat) (age : Nat) : List (Nat × Nat) :=
  (List.range' (prevBarrier barriers age) (age - prevBarrier barriers age)).map
    (fun i => (i, age))

/-- The rollout pass of `Graph::compute_edges`: scan indices newest to oldest
and push the edges for every rollout-marked index. -/
def rolloutEdges (rollouts barriers : List Nat) (len : Nat) : List (Nat × Nat) :=
  ((List.range len).reverse).flatMap
    (fun age => if age ∈ rollouts then rolloutEdgesTo barriers age else [])

/-- The barrier pass of `Graph::compute_edges`: walk the barriers in ascending
order carrying `start` (the previous barrier, initially 0); an in-progress
barrier (also rollout-marked) gets no edges here but still advances `start`. -/
def barrierLoop (rollouts : List Nat) (start : Nat) : List Nat → List (Nat × Nat)
  | [] => []
  | target :: rest =>
    (if target ∈ rollouts then []
      else (List.range' start (target - start)).map (fun i => (i, target)))
      ++ barrierLoop rollouts target rest

/-- The edge list assembled by `Graph::compute_edges`: rollout-pass pushes
followed by barrier-pass pushes. -/
def computeEdgesList (nodes : List CincinnatiPayload) : List (Nat × Nat) :=
  rolloutEdges (collectRollouts nodes) (collectBarriers nodes) nodes.length
    ++ barrierLoop (collectRollouts nodes) 0 (collectBarriers nodes)

/-- Embeds `Graph::compute_edges` (`Fallible` result; the body always
returns `Ok`). -/
def computeEdges (nodes : List CincinnatiPayload) : Except String (List (Nat × Nat)) :=
  .ok (computeEdgesList nodes)

/-- Deadend test on a node: its metadata carries `deadend = "true"`. -/
def isDeadendNode (n : CincinnatiPayload) : Bool :=
  mdLookup n.metadata DEADEND == some "true"

/-- Indices of the nodes kept by the deadend filter. -/
def keptIndices (nodes : List CincinnatiPayload) : List Nat :=
  (List.range nodes.length).filter (fun i => !isDeadendNode (nodes.getD i default))

/-- New index of an old index after the deadend filter: the number of kept
indices below it. -/
def reindex (kept : List Nat) (i : Nat) : Nat :=
  (kept.filter (fun j => j < i)).length

/-- Modelled from the spec: `policy::filter_deadends` (`commons/src/policy.rs`
is not among the sources). Per spec 4.2 it removes every node whose metadata
carries `deadend=true`, drops all edges touching a removed node, and renumbers
the remaining node references so indices stay contiguous. -/
def filterDeadends (g : Graph) : Graph :=
  let kept := keptIndices g.nodes
  { nodes := g.nodes.filter (fun n => !isDeadendNode n)
    edges := g.edges.filterMap
      (fun e =>
        if e.1 ∈ kept ∧ e.2 ∈ kept then some (reindex kept e.1, reindex kept e.2)
        else none) }

/-- The `nodes` list built by `Graph::from_metadata`: enumerate the releases
(before any filtering, so `age_index` counts input positions) and keep the
eligible ones. -/
def nodesOf (releases : List Release) (updates : UpdatesJSON) (scope : GraphScope) :
    List CincinnatiPayload :=
  releases.enum.filterMap (fun p => processRelease scope updates p.1 p.2)

/-- Embeds `Graph::from_metadata`: build the eligible nodes in input order,
compute the edges, and filter deadends. -/
def fromMetadata (releases : List Release) (updates : UpdatesJSON) (scope : GraphScope) :
    Except String Graph :=
  match computeEdges (nodesOf releases updates scope) with
  | .error e => .error e
  | .ok edges => .ok (filterDeadends { nodes := nodesOf releases updates scope, edges := edges })

/-- Scope match for a commit: the scope's architecture with a non-empty
checksum (negation of the `continue` condition of the commit scan). -/
def commitMatches (scope : GraphScope) (c : Commit) : Bool :=
  decide (c.architecture = scope.basearch ∧ c.checksum ≠ "")

/-- Scope match for an OCI image: the scope's architecture with a non-empty
digest (negation of the `continue` condition of the image scan). -/
def ociMatches (scope : GraphScope) (img : OciImage) : Bool :=
  decide (img.architecture = scope.basearch ∧ img.digest_ref ≠ "")

/-- Eligibility of a release for a scope, as the spec words it: some payload
entry of the scope's transport kind has the scope's architecture and a
non-empty reference. -/
def eligibleRelease (scope : GraphScope) (entry : Release) : Bool :=
  if scope.oci then
    match entry.oci_images with
    | some oci_images => oci_images.any (ociMatches scope)
    | none => false
  else
    entry.commits.any (commitMatches scope)

/-- Query parameters of a `/v1/graph` request (`commons::web::GraphQuery`). -/
structure GraphQuery where
  basearch : Option String
  stream : Option String
deriving DecidableEq, Repr

/-- Responses of the graph handler, abstracting `actix_web::HttpResponse`. -/
inductive HttpResponse where
  | badRequest
  | notFound
  | okJson (body : String)
deriving DecidableEq, Repr

/-- Modelled from the spec: `GraphQuery::validate_scope` (`commons/src/web.rs`
is not among the sources). Per spec 4.4 it rejects a request whose scope is
not in the allowed set (when one is configured) and otherwise resolves the
query to a scope; missing mandatory parameters fail validation. -/
def validateScope (q : GraphQuery) (filter : Option (List GraphScope)) :
    Except String GraphScope :=
  match q.basearch, q.stream with
  | some basearch, some stream =>
    let scope : GraphScope := { basearch := basearch, stream := stream, oci := false }
    match filter with
    | none => .ok scope
    | some allowed =>
      if scope ∈ allowed then .ok scope else .error "scope not allowed"
  | _, _ => .error "missing mandatory parameter"

/-- Server state of the graph builder (`AppState`): the optional scope
allow-list and the configured scrapers, each modelled by the graph its
`GetCachedGraph` reply would carry (per spec 4.3 that request never fails). -/
structure AppState where
  scope_filter : Option (List GraphScope)
  scrapers : List (GraphScope × Graph)

/-- Scraper lookup by scope (`data.scrapers.get(&scope)`). -/
def scraperLookup (scrapers : List (GraphScope × Graph)) (scope : GraphScope) :
    Option Graph :=
  (scrapers.find? (fun p => p.1 = scope)).map (fun p => p.2)

/-- Modelled from the spec: the JSON rendering done with `serde_json` in
`gb_serve_graph` (spec section 6); the exact text is irrelevant to the claims,
only that a graph body is produced. -/
def serializeGraph (g : Graph) : String :=
  String.intercalate "," (g.nodes.map (fun n => n.version ++ ":" ++ n.payload))
    ++ "|"
    ++ String.intercalate "," (g.edges.map (fun e => toString e.1 ++ "-" ++ toString e.2))

/-- Embeds `gb_serve_graph` (`fcos-graph-builder/src/main.rs`): validate the
scope (400 on failure), look up the scraper (404 when absent), then fetch the
cached graph, filter deadends and serialize. -/
def gbServeGraph (data : AppState) (query : GraphQuery) : HttpResponse :=
  match validateScope query data.scope_filter with
  | .error _ => .badRequest
  | .ok scope =>
    match scraperLookup data.scrapers scope with
    | none => .notFound
    | some cached => .okJson (serializeGraph (filterDeadends cached))

/-! ### Metadata map lemmas -/

theorem mdLookup_insert_self (m : List (String × String)) (k v : String) :
    mdLookup (mdInsert m k v) k = some v := by
  simp [mdInsert, mdLookup]

theorem mdLookup_insert_ne (m : List (String × String)) (k v k2 : String) (h : k ≠ k2) :
    mdLookup (mdInsert m k v) k2 = mdLookup m k2 := by
  simp [mdInsert, mdLookup, h]

/-! ### Payload scan lemmas -/

theorem commitStep_match (scope : GraphScope) (acc : CincinnatiPayload × Bool) (c : Commit)
    (h : commitMatches scope c = true) :
    commitStep scope acc c =
      ({ acc.1 with
          payload := c.checksum
          metadata := mdInsert acc.1.metadata SCHEME "checksum" },
        true) := by
  have h2 : c.architecture = scope.basearch ∧ c.checksum ≠ "" := of_decide_eq_true h
  unfold commitStep
  rw [if_neg]
  rintro (hc | hc)
  · exact hc h2.1
  · exact h2.2 hc

theorem commitStep_nomatch (scope : GraphScope) (acc : CincinnatiPayload × Bool) (c : Commit)
    (h : commitMatches scope c = false) :
    commitStep scope acc c = acc := by
  have h2 : ¬(c.architecture = scope.basearch ∧ c.checksum ≠ "") := of_decide_eq_false h
  unfold commitStep
  rw [if_pos]
  rcases not_and_or.mp h2 with hc | hc
  · exact Or.inl hc
  · exact Or.inr (not_not.mp hc)

theorem ociStep_match (scope : GraphScope) (acc : CincinnatiPayload × Bool) (img : OciImage)
    (h : ociMatches scope img = true) :
    ociStep scope acc img =
      ({ acc.1 with
          payload := img.digest_ref
          metadata := mdInsert acc.1.metadata SCHEME "oci" },
        true) := by
  have h2 : img.architecture = scope.basearch ∧ img.digest_ref ≠ "" := of_decide_eq_true h
  unfold ociStep
  rw [if_neg]
  rintro (hc | hc)
  · exact hc h2.1
  · exact h2.2 hc

theorem ociStep_nomatch (scope : GraphScope) (acc : CincinnatiPayload × Bool) (img : OciImage)
    (h : ociMatches scope img = false) :
    ociStep scope acc img = acc := by
  have h2 : ¬(img.architecture = scope.basearch ∧ img.digest_ref ≠ "") := of_decide_eq_false h
  unfold ociStep
  rw [if_pos]
  rcases not_and_or.mp h2 with hc | hc
  · exact Or.inl hc
  · exact Or.inr (not_not.mp hc)

theorem commitFold_snd (scope : GraphScope) (l : List Commit) :
    ∀ acc : CincinnatiPayload × Bool,
      (l.foldl (commitStep scope) acc).2 = (acc.2 || l.any (commitMatches scope)) := by
  induction l with
  | nil => intro acc; simp
  | cons c t ih =>
    intro acc
    rw [List.foldl_cons, List.any_cons, ih]
    cases h : commitMatches scope c with
    | true => rw [commitStep_match scope acc c h]; simp
    | false => rw [commitStep_nomatch scope acc c h]; simp

theorem ociFold_snd (scope : GraphScope) (l : List OciImage) :
    ∀ acc : CincinnatiPayload × Bool,
      (l.foldl (ociStep scope) acc).2 = (acc.2 || l.any (ociMatches scope)) := by
  induction l with
  | nil => intro acc; simp
  | cons c t ih =>
    intro acc
    rw [List.foldl_cons, List.any_cons, ih]
    cases h : ociMatches scope c with
    | true => rw [ociStep_match scope acc c h]; simp
    | false => rw [ociStep_nomatch scope acc c h]; simp

theorem commitFold_lookup (scope : GraphScope) (l : List Commit) (k : String) (hk : k ≠ SCHEME) :
    ∀ acc : CincinnatiPayload × Bool,
      mdLookup (l.foldl (commitStep scope) acc).1.metadata k = mdLookup acc.1.metadata k := by
  induction l with
  | nil => intro acc; rfl
  | cons c t ih =>
    intro acc
    rw [List.foldl_cons, ih]
    unfold commitStep
    split
    · rfl
    · exact mdLookup_insert_ne _ _ _ _ (fun h => hk h.symm)

theorem ociFold_lookup (scope : GraphScope) (l : List OciImage) (k : String) (hk : k ≠ SCHEME) :
    ∀ acc : CincinnatiPayload × Bool,
      mdLookup (l.foldl (ociStep scope) acc).1.metadata k = mdLookup acc.1.metadata k := by
  induction l with
  | nil => intro acc; rfl
  | cons c t ih =>
    intro acc
    rw [List.foldl_cons, ih]
    unfold ociStep
    split
    · rfl
    · exact mdLookup_insert_ne _ _ _ _ (fun h => hk h.symm)

theorem commitFold_nomatch (scope : GraphScope) (l : List Commit)
    (h : ∀ c ∈ l, commitMatches scope c = false) :
    ∀ acc : CincinnatiPayload × Bool, l.foldl (commitStep scope) acc = acc := by
  induction l with
  | nil => intro acc; rfl
  | cons c t ih =>
    intro acc
    rw [List.foldl_cons, commitStep_nomatch scope acc c (h c (List.mem_cons_self c t))]
    exact ih (fun x hx => h x (List.mem_cons_of_mem c hx)) acc

theorem ociFold_nomatch (scope : GraphScope) (l : List OciImage)
    (h : ∀ c ∈ l, ociMatches scope c = false) :
    ∀ acc : CincinnatiPayload × Bool, l.foldl (ociStep scope) acc = acc := by
  induction l with
  | nil => intro acc; rfl
  | cons c t ih =>
    intro acc
    rw [List.foldl_cons, ociStep_nomatch scope acc c (h c (List.mem_cons_self c t))]
    exact ih (fun x hx => h x (List.mem_cons_of_mem c hx)) acc

theorem commitFold_last (scope : GraphScope) (pre post : List Commit) (c : Commit)
    (hc : commitMatches scope c = true) (hpost : ∀ x ∈ post, commitMatches scope x = false)
    (acc : CincinnatiPayload × Bool) :
    (pre ++ c :: post).foldl (commitStep scope) acc =
      ({ (pre.foldl (commitStep scope) acc).1 with
          payload := c.checksum
          metadata := mdInsert (pre.foldl (commitStep scope) acc).1.metadata SCHEME "checksum" },
        true) := by
  rw [List.foldl_append, List.foldl_cons, commitStep_match scope _ c hc]
  exact commitFold_nomatch scope post hpost _

theorem ociFold_last (scope : GraphScope) (pre post : List OciImage) (img : OciImage)
    (hc : ociMatches scope img = true) (hpost : ∀ x ∈ post, ociMatches scope x = false)
    (acc : CincinnatiPayload × Bool) :
    (pre ++ img :: post).foldl (ociStep scope) acc =
      ({ (pre.foldl (ociStep scope) acc).1 with
          payload := img.digest_ref
          metadata := mdInsert (pre.foldl (ociStep scope) acc).1.metadata SCHEME "oci" },
        true) := by
  rw [List.foldl_append, List.foldl_cons, ociStep_match scope _ img hc]
  exact ociFold_nomatch scope post hpost _

/-! ### Injection lemmas -/

theorem barrierStep_payload (rel : CincinnatiPayload) (entry : UpdateRelease) :
    (barrierStep rel entry).payload = rel.payload := by
  unfold barrierStep
  split
  · rfl
  · split <;> rfl

theorem deadendStep_payload (rel : CincinnatiPayload) (entry : UpdateRelease) :
    (deadendStep rel entry).payload = rel.payload := by
  unfold deadendStep
  split
  · rfl
  · split <;> rfl

theorem throttlingStep_payload (rel : CincinnatiPayload) (entry : UpdateRelease) :
    (throttlingStep rel entry).payload = rel.payload := by
  unfold throttlingStep
  split
  · rfl
  · split <;> rfl

theorem injectBarrierReason_payload (updates : UpdatesJSON) :
    ∀ rel : CincinnatiPayload, (injectBarrierReason updates rel).payload = rel.payload := by
  unfold injectBarrierReason
  induction updates.releases with
  | nil => intro rel; rfl
  | cons u t ih => intro rel; rw [List.foldl_cons, ih, barrierStep_payload]

theorem injectDeadendReason_payload (updates : UpdatesJSON) :
    ∀ rel : CincinnatiPayload, (injectDeadendReason updates rel).payload = rel.payload := by
  unfold injectDeadendReason
  induction updates.releases with
  | nil => intro rel; rfl
  | cons u t ih => intro rel; rw [List.foldl_cons, ih, deadendStep_payload]

theorem injectThrottlingParams_payload (updates : UpdatesJSON) :
    ∀ rel : CincinnatiPayload, (injectThrottlingParams updates rel).payload = rel.payload := by
  unfold injectThrottlingParams
  induction updates.releases with
  | nil => intro rel; rfl
  | cons u t ih => intro rel; rw [List.foldl_cons, ih, throttlingStep_payload]

theorem barrierStep_lookup (rel : CincinnatiPayload) (entry : UpdateRelease) (k : String)
    (h1 : k ≠ BARRIER) (h2 : k ≠ BARRIER_REASON) :
    mdLookup (barrierStep rel entry).metadata k = mdLookup rel.metadata k := by
  unfold barrierStep
  split
  · rfl
  · split
    · rfl
    · rw [mdLookup_insert_ne _ _ _ _ (fun h => h2 h.symm),
        mdLookup_insert_ne _ _ _ _ (fun h => h1 h.symm)]

theorem deadendStep_lookup (rel : CincinnatiPayload) (entry : UpdateRelease) (k : String)
    (h1 : k ≠ DEADEND) (h2 : k ≠ DEADEND_REASON) :
    mdLookup (deadendStep rel entry).metadata k = mdLookup rel.metadata k := by
  unfold deadendStep
  split
  · rfl
  · split
    · rfl
    · rw [mdLookup_insert_ne _ _ _ _ (fun h => h2 h.symm),
        mdLookup_insert_ne _ _ _ _ (fun h => h1 h.symm)]

theorem throttlingStep_lookup (rel : CincinnatiPayload) (entry : UpdateRelease) (k : String)
    (h1 : k ≠ ROLLOUT) (h2 : k ≠ START_EPOCH) (h3 : k ≠ START_VALUE) (h4 : k ≠ DURATION) :
    mdLookup (throttlingStep rel entry).metadata k = mdLookup rel.metadata k := by
  have r1 : ∀ (m : List (String × String)) (v : String),
      mdLookup (mdInsert m ROLLOUT v) k = mdLookup m k :=
    fun m v => mdLookup_insert_ne m ROLLOUT v k (fun h => h1 h.symm)
  have r2 : ∀ (m : List (String × String)) (v : String),
      mdLookup (mdInsert m START_EPOCH v) k = mdLookup m k :=
    fun m v => mdLookup_insert_ne m START_EPOCH v k (fun h => h2 h.symm)
  have r3 : ∀ (m : List (String × String)) (v : String),
      mdLookup (mdInsert m START_VALUE v) k = mdLookup m k :=
    fun m v => mdLookup_insert_ne m START_VALUE v k (fun h => h3 h.symm)
  have r4 : ∀ (m : List (String × String)) (v : String),
      mdLookup (mdInsert m DURATION v) k = mdLookup m k :=
    fun m v => mdLookup_insert_ne m DURATION v k (fun h => h4 h.symm)
  unfold throttlingStep
  split
  · rfl
  · split
    · rfl
    · rename_i rollout heq
      cases hse : rollout.start_epoch <;> cases hsp : rollout.start_percentage <;>
        cases hdm : rollout.duration_minutes <;>
        simp only [hse, hsp, hdm, r1, r2, r3, r4]

theorem injectBarrierReason_lookup (updates : UpdatesJSON) (k : String)
    (h1 : k ≠ BARRIER) (h2 : k ≠ BARRIER_REASON) :
    ∀ rel : CincinnatiPayload,
      mdLookup (injectBarrierReason updates rel).metadata k = mdLookup rel.metadata k := by
  unfold injectBarrierReason
  induction updates.releases with
  | nil => intro rel; rfl
  | cons u t ih => intro rel; rw [List.foldl_cons, ih, barrierStep_lookup _ _ _ h1 h2]

theorem injectDeadendReason_lookup (updates : UpdatesJSON) (k : String)
    (h1 : k ≠ DEADEND) (h2 : k ≠ DEADEND_REASON) :
    ∀ rel : CincinnatiPayload,
      mdLookup (injectDeadendReason updates rel).metadata k = mdLookup rel.metadata k := by
  unfold injectDeadendReason
  induction updates.releases with
  | nil => intro rel; rfl
  | cons u t ih => intro rel; rw [List.foldl_cons, ih, deadendStep_lookup _ _ _ h1 h2]

theorem injectThrottlingParams_lookup (updates : UpdatesJSON) (k : String)
    (h1 : k ≠ ROLLOUT) (h2 : k ≠ START_EPOCH) (h3 : k ≠ START_VALUE) (h4 : k ≠ DURATION) :
    ∀ rel : CincinnatiPayload,
      mdLookup (injectThrottlingParams updates rel).metadata k = mdLookup rel.metadata k := by
  unfold injectThrottlingParams
  induction updates.releases with
  | nil => intro rel; rfl
  | cons u t ih => intro rel; rw [List.foldl_cons, ih, throttlingStep_lookup _ _ _ h1 h2 h3 h4]

theorem deadendStep_none (rel : CincinnatiPayload) (entry : UpdateRelease)
    (h : entry.metadata.deadend = none) : deadendStep rel entry = rel := by
  unfold deadendStep
  split
  · rfl
  · rw [h]

theorem foldl_deadendStep_none (l : List UpdateRelease)
    (h : ∀ u ∈ l, u.metadata.deadend = none) :
    ∀ rel : CincinnatiPayload, l.foldl deadendStep rel = rel := by
  induction l with
  | nil => intro rel; rfl
  | cons u t ih =>
    intro rel
    rw [List.foldl_cons, deadendStep_none rel u (h u (List.mem_cons_self u t))]
    exact ih (fun x hx => h x (List.mem_cons_of_mem u hx)) rel

theorem injectDeadendReason_id (updates : UpdatesJSON)
    (h : ∀ u ∈ updates.releases, u.metadata.deadend = none) :
    ∀ rel : CincinnatiPayload, injectDeadendReason updates rel = rel :=
  foldl_deadendStep_none updates.releases h

/-! ### processRelease lemmas -/

theorem age_ne_scheme : AGE_INDEX ≠ SCHEME := by decide

theorem age_ne_barrier : AGE_INDEX ≠ BARRIER := by decide

theorem age_ne_barrier_reason : AGE_INDEX ≠ BARRIER_REASON := by decide

theorem age_ne_deadend : AGE_INDEX ≠ DEADEND := by decide

theorem age_ne_deadend_reason : AGE_INDEX ≠ DEADEND_REASON := by decide

theorem age_ne_rollout : AGE_INDEX ≠ ROLLOUT := by decide

theorem age_ne_start_epoch : AGE_INDEX ≠ START_EPOCH := by decide

theorem age_ne_start_value : AGE_INDEX ≠ START_VALUE := by decide

theorem age_ne_duration : AGE_INDEX ≠ DURATION := by decide

theorem deadend_ne_scheme : DEADEND ≠ SCHEME := by decide

theorem deadend_ne_barrier : DEADEND ≠ BARRIER := by decide

theorem deadend_ne_barrier_reason : DEADEND ≠ BARRIER_REASON := by decide

theorem deadend_ne_rollout : DEADEND ≠ ROLLOUT := by decide

theorem deadend_ne_start_epoch : DEADEND ≠ START_EPOCH := by decide

theorem deadend_ne_start_value : DEADEND ≠ START_VALUE := by decide

theorem deadend_ne_duration : DEADEND ≠ DURATION := by decide

theorem augmentNode_payload (updates : UpdatesJSON) (cur : CincinnatiPayload) :
    (augmentNode updates cur).payload = cur.payload := by
  unfold augmentNode
  rw [injectThrottlingParams_payload, injectBarrierReason_payload, injectDeadendReason_payload]

theorem augmentNode_age (updates : UpdatesJSON) (cur : CincinnatiPayload) :
    mdLookup (augmentNode updates cur).metadata AGE_INDEX = mdLookup cur.metadata AGE_INDEX := by
  unfold augmentNode
  rw [injectThrottlingParams_lookup updates AGE_INDEX age_ne_rollout age_ne_start_epoch
      age_ne_start_value age_ne_duration,
    injectBarrierReason_lookup updates AGE_INDEX age_ne_barrier age_ne_barrier_reason,
    injectDeadendReason_lookup updates AGE_INDEX age_ne_deadend age_ne_deadend_reason]

theorem augmentNode_deadend (updates : UpdatesJSON) (cur : CincinnatiPayload)
    (h : ∀ u ∈ updates.releases, u.metadata.deadend = none) :
    mdLookup (augmentNode updates cur).metadata DEADEND = mdLookup cur.metadata DEADEND := by
  unfold augmentNode
  rw [injectThrottlingParams_lookup updates DEADEND deadend_ne_rollout deadend_ne_start_epoch
      deadend_ne_start_value deadend_ne_duration,
    injectBarrierReason_lookup updates DEADEND deadend_ne_barrier deadend_ne_barrier_reason,
    injectDeadendReason_id updates h]

theorem processRelease_isSome (scope : GraphScope) (updates : UpdatesJSON) (k : Nat)
    (entry : Release) :
    (processRelease scope updates k entry).isSome = eligibleRelease scope entry := by
  unfold processRelease eligibleRelease
  cases hoci : scope.oci with
  | false =>
    simp only [Bool.false_eq_true, if_false]
    rw [commitFold_snd]
    cases h : entry.commits.any (commitMatches scope) <;> simp
  | true =>
    simp only [if_true]
    cases entry.oci_images with
    | none => rfl
    | some oci_images =>
      simp only []
      rw [ociFold_snd]
      cases h : oci_images.any (ociMatches scope) <;> simp

theorem initialNode_age (k : Nat) (entry : Release) :
    mdLookup (initialNode k entry).metadata AGE_INDEX = some (toString k) := by
  unfold initialNode
  exact mdLookup_insert_self _ _ _

theorem initialNode_deadend (k : Nat) (entry : Release) :
    mdLookup (initialNode k entry).metadata DEADEND = none := by
  unfold initialNode
  rw [mdLookup_insert_ne _ _ _ _ age_ne_deadend]
  rfl

theorem processRelease_some_age (scope : GraphScope) (updates : UpdatesJSON) (k : Nat)
    (entry : Release) (node : CincinnatiPayload)
    (h : processRelease scope updates k entry = some node) :
    mdLookup node.metadata AGE_INDEX = some (toString k) := by
  unfold processRelease at h
  cases hoci : scope.oci with
  | false =>
    rw [hoci] at h
    simp only [Bool.false_eq_true, if_false] at h
    by_cases hsnd : (entry.commits.foldl (commitStep scope) (initialNode k entry, false)).2 = true
    · rw [if_pos hsnd] at h
      obtain rfl : augmentNode updates _ = node := Option.some.inj h
      rw [augmentNode_age, commitFold_lookup scope entry.commits AGE_INDEX age_ne_scheme,
        initialNode_age]
    · rw [if_neg hsnd] at h
      exact absurd h (Option.noConfusion)
  | true =>
    rw [hoci] at h
    simp only [if_true] at h
    cases himg : entry.oci_images with
    | none => rw [himg] at h; exact absurd h (Option.noConfusion)
    | some oci_images =>
      rw [himg] at h
      simp only [] at h
      by_cases hsnd : (oci_images.foldl (ociStep scope) (initialNode k entry, false)).2 = true
      · rw [if_pos hsnd] at h
        obtain rfl : augmentNode updates _ = node := Option.some.inj h
        rw [augmentNode_age, ociFold_lookup scope oci_images AGE_INDEX age_ne_scheme,
          initialNode_age]
      · rw [if_neg hsnd] at h
        exact absurd h (Option.noConfusion)

theorem processRelease_some_deadend (scope : GraphScope) (updates : UpdatesJSON) (k : Nat)
    (entry : Release) (node : CincinnatiPayload)
    (hup : ∀ u ∈ updates.releases, u.metadata.deadend = none)
    (h : processRelease scope updates k entry = some node) :
    mdLookup node.metadata DEADEND = none := by
  unfold processRelease at h
  cases hoci : scope.oci with
  | false =>
    rw [hoci] at h
    simp only [Bool.false_eq_true, if_false] at h
    by_cases hsnd : (entry.commits.foldl (commitStep scope) (initialNode k entry, false)).2 = true
    · rw [if_pos hsnd] at h
      obtain rfl : augmentNode updates _ = node := Option.some.inj h
      rw [augmentNode_deadend updates _ hup,
        commitFold_lookup scope entry.commits DEADEND deadend_ne_scheme, initialNode_deadend]
    · rw [if_neg hsnd] at h
      exact absurd h (Option.noConfusion)
  | true =>
    rw [hoci] at h
    simp only [if_true] at h
    cases himg : entry.oci_images with
    | none => rw [himg] at h; exact absurd h (Option.noConfusion)
    | some oci_images =>
      rw [himg] at h
      simp only [] at h
      by_cases hsnd : (oci_images.foldl (ociStep scope) (initialNode k entry, false)).2 = true
      · rw [if_pos hsnd] at h
        obtain rfl : augmentNode updates _ = node := Option.some.inj h
        rw [augmentNode_deadend updates _ hup,
          ociFold_lookup scope oci_images DEADEND deadend_ne_scheme, initialNode_deadend]
      · rw [if_neg hsnd] at h
        exact absurd h (Option.noConfusion)

/-! ### Edge computation lemmas -/

theorem mem_range_iff (s n m : Nat) : m ∈ List.range' s n ↔ s ≤ m ∧ m < s + n := by
  rw [List.mem_range']
  constructor
  · rintro ⟨i, hi, rfl⟩
    omega
  · rintro ⟨h1, h2⟩
    exact ⟨m - s, by omega, by omega⟩

theorem foldr_max_le (l : List Nat) (m : Nat) (h : ∀ x ∈ l, x ≤ m) :
    l.foldr Nat.max 0 ≤ m := by
  induction l with
  | nil => exact Nat.zero_le m
  | cons a t ih =>
    rw [List.foldr_cons]
    exact Nat.max_le.mpr ⟨h a (List.mem_cons_self a t),
      ih (fun x hx => h x (List.mem_cons_of_mem a hx))⟩

theorem foldr_max_eq (l : List Nat) (p : Nat) (hp : p ∈ l) (hub : ∀ x ∈ l, x ≤ p) :
    l.foldr Nat.max 0 = p := by
  induction l with
  | nil => exact absurd hp (List.not_mem_nil p)
  | cons a t ih =>
    rw [List.foldr_cons]
    rcases List.mem_cons.mp hp with rfl | hpt
    · exact Nat.max_eq_left (foldr_max_le t p (fun x hx => hub x (List.mem_cons_of_mem p hx)))
    · rw [ih hpt (fun x hx => hub x (List.mem_cons_of_mem a hx))]
      exact Nat.max_eq_right (hub a (List.mem_cons_self a t))

theorem prevBarrier_le (barriers : List Nat) (age : Nat) : prevBarrier barriers age ≤ age := by
  unfold prevBarrier
  apply foldr_max_le
  intro x hx
  have := (List.mem_filter.mp hx).2
  have : x < age := of_decide_eq_true this
  omega

theorem prevBarrier_eq (barriers : List Nat) (age p : Nat)
    (h : (p ∈ barriers ∧ p < age ∧ ∀ b ∈ barriers, b < age → b ≤ p) ∨
      (p = 0 ∧ ∀ b ∈ barriers, ¬b < age)) :
    prevBarrier barriers age = p := by
  unfold prevBarrier
  rcases h with ⟨hpB, hpa, hub⟩ | ⟨rfl, hnone⟩
  · apply foldr_max_eq
    · exact List.mem_filter.mpr ⟨hpB, decide_eq_true hpa⟩
    · intro x hx
      have hxB := (List.mem_filter.mp hx).1
      have hxa : x < age := of_decide_eq_true (List.mem_filter.mp hx).2
      exact hub x hxB hxa
  · rw [List.filter_eq_nil_iff.mpr (fun b hb => by simpa using hnone b hb)]
    rfl

theorem mem_rolloutEdgesTo (barriers : List Nat) (age f t : Nat) :
    (f, t) ∈ rolloutEdgesTo barriers age ↔
      t = age ∧ prevBarrier barriers age ≤ f ∧ f < age := by
  unfold rolloutEdgesTo
  rw [List.mem_map]
  have hle := prevBarrier_le barriers age
  constructor
  · rintro ⟨i, hi, heq⟩
    obtain ⟨rfl, rfl⟩ : i = f ∧ age = t := Prod.mk.injEq .. ▸ And.intro
      (congrArg Prod.fst heq) (congrArg Prod.snd heq)
    have := (mem_range_iff _ _ _).mp hi
    exact ⟨rfl, this.1, by omega⟩
  · rintro ⟨rfl, h1, h2⟩
    exact ⟨f, (mem_range_iff _ _ _).mpr ⟨h1, by omega⟩, rfl⟩

theorem mem_rolloutEdges (rollouts barriers : List Nat) (len f t : Nat) :
    (f, t) ∈ rolloutEdges rollouts barriers len ↔
      t ∈ rollouts ∧ t < len ∧ prevBarrier barriers t ≤ f ∧ f < t := by
  unfold rolloutEdges
  rw [List.mem_flatMap]
  constructor
  · rintro ⟨age, hage, hmem⟩
    by_cases hR : age ∈ rollouts
    · rw [if_pos hR] at hmem
      obtain ⟨rfl, h1, h2⟩ := (mem_rolloutEdgesTo barriers age f t).mp hmem
      have hlen : t < len := List.mem_range.mp (List.mem_reverse.mp hage)
      exact ⟨hR, hlen, h1, h2⟩
    · rw [if_neg hR] at hmem
      exact absurd hmem (List.not_mem_nil _)
  · rintro ⟨htR, htlen, h1, h2⟩
    refine ⟨t, List.mem_reverse.mpr (List.mem_range.mpr htlen), ?_⟩
    rw [if_pos htR]
    exact (mem_rolloutEdgesTo barriers t f t).mpr ⟨rfl, h1, h2⟩

theorem rolloutEdges_snd (rollouts barriers : List Nat) (len : Nat)
    (e : Nat × Nat) (h : e ∈ rolloutEdges rollouts barriers len) : e.2 ∈ rollouts :=
  ((mem_rolloutEdges rollouts barriers len e.1 e.2).mp h).1

theorem barrierLoop_snd (rollouts : List Nat) :
    ∀ (ts : List Nat) (start : Nat) (e : Nat × Nat),
      e ∈ barrierLoop rollouts start ts → e.2 ∈ ts ∧ e.2 ∉ rollouts := by
  intro ts
  induction ts with
  | nil => intro start e h; exact absurd h (List.not_mem_nil e)
  | cons target rest ih =>
    intro start e h
    rw [barrierLoop, List.mem_append] at h
    rcases h with h | h
    · by_cases hR : target ∈ rollouts
      · rw [if_pos hR] at h
        exact absurd h (List.not_mem_nil e)
      · rw [if_neg hR] at h
        obtain ⟨i, _, heq⟩ := List.mem_map.mp h
        have h2 : e.2 = target := by rw [← heq]
        rw [h2]
        exact ⟨List.mem_cons_self target rest, hR⟩
    · obtain ⟨h1, h2⟩ := ih target e h
      exact ⟨List.mem_cons_of_mem target h1, h2⟩

theorem barrierLoop_mem (rollouts : List Nat) :
    ∀ (ts : List Nat) (start : Nat), List.Pairwise (· < ·) ts → (∀ t ∈ ts, start ≤ t) →
      ∀ f b : Nat,
        ((f, b) ∈ barrierLoop rollouts start ts ↔
          b ∈ ts ∧ b ∉ rollouts ∧ start ≤ f ∧ f < b ∧ ∀ t ∈ ts, t < b → t ≤ f) := by
  intro ts
  induction ts with
  | nil =>
    intro start _ _ f b
    simp [barrierLoop]
  | cons target rest ih =>
    intro start hsort hlb f b
    have hlt : ∀ t ∈ rest, target < t := (List.pairwise_cons.mp hsort).1
    have hstart : start ≤ target := hlb target (List.mem_cons_self target rest)
    rw [barrierLoop, List.mem_append,
      ih target hsort.of_cons (fun t ht => Nat.le_of_lt (hlt t ht)) f b]
    constructor
    · rintro (h | ⟨hbR, hnR, htf, hfb, hall⟩)
      · by_cases hR : target ∈ rollouts
        · rw [if_pos hR] at h
          exact absurd h (List.not_mem_nil _)
        · rw [if_neg hR] at h
          obtain ⟨i, hi, heq⟩ := List.mem_map.mp h
          obtain ⟨rfl, rfl⟩ : i = f ∧ target = b := Prod.mk.injEq .. ▸ And.intro
            (congrArg Prod.fst heq) (congrArg Prod.snd heq)
          have hir := (mem_range_iff _ _ _).mp hi
          refine ⟨List.mem_cons_self target rest, hR, hir.1, by omega, ?_⟩
          intro t ht htb
          rcases List.mem_cons.mp ht with rfl | htr
          · omega
          · exact absurd htb (by have := hlt t htr; omega)
      · refine ⟨List.mem_cons_of_mem target hbR, hnR, Nat.le_trans hstart htf, hfb, ?_⟩
        intro t ht htb
        rcases List.mem_cons.mp ht with rfl | htr
        · exact htf
        · exact hall t htr htb
    · rintro ⟨hbts, hnR, hsf, hfb, hall⟩
      rcases List.mem_cons.mp hbts with rfl | hbr
      · left
        rw [if_neg hnR]
        refine List.mem_map.mpr ⟨f, (mem_range_iff _ _ _).mpr ⟨hsf, by omega⟩, rfl⟩
      · right
        have htb : target < b := hlt b hbr
        refine ⟨hbr, hnR, hall target (List.mem_cons_self target rest) htb, hfb, ?_⟩
        intro t ht htlt
        exact hall t (List.mem_cons_of_mem target ht) htlt

theorem barrierLoop_lt (rollouts : List Nat) :
    ∀ (ts : List Nat) (start : Nat) (e : Nat × Nat),
      e ∈ barrierLoop rollouts start ts → e.1 < e.2 := by
  intro ts
  induction ts with
  | nil => intro start e h; exact absurd h (List.not_mem_nil e)
  | cons target rest ih =>
    intro start e h
    rw [barrierLoop, List.mem_append] at h
    rcases h with h | h
    · by_cases hR : target ∈ rollouts
      · rw [if_pos hR] at h
        exact absurd h (List.not_mem_nil e)
      · rw [if_neg hR] at h
        obtain ⟨i, hi, heq⟩ := List.mem_map.mp h
        have := (mem_range_iff _ _ _).mp hi
        rw [← heq]
        simp only []
        omega
    · exact ih target e h

theorem mem_collectRollouts (nodes : List CincinnatiPayload) (i : Nat) :
    i ∈ collectRollouts nodes ↔
      i < nodes.length ∧ mdContains (nodes.getD i default).metadata ROLLOUT = true := by
  unfold collectRollouts
  rw [List.mem_filter, List.mem_range]

theorem mem_collectBarriers (nodes : List CincinnatiPayload) (i : Nat) :
    i ∈ collectBarriers nodes ↔
      i < nodes.length ∧ mdContains (nodes.getD i default).metadata BARRIER = true := by
  unfold collectBarriers
  rw [List.mem_filter, List.mem_range]

theorem sorted_collectBarriers (nodes : List CincinnatiPayload) :
    List.Pairwise (· < ·) (collectBarriers nodes) :=
  List.Pairwise.filter _ (List.pairwise_lt_range nodes.length)

theorem mem_computeEdgesList (nodes : List CincinnatiPayload) (f t : Nat) :
    (f, t) ∈ computeEdgesList nodes ↔
      (t ∈ collectRollouts nodes ∧ t < nodes.length ∧
        prevBarrier (collectBarriers nodes) t ≤ f ∧ f < t) ∨
      (t ∈ collectBarriers nodes ∧ t ∉ collectRollouts nodes ∧ f < t ∧
        ∀ b ∈ collectBarriers nodes, b < t → b ≤ f) := by
  unfold computeEdgesList
  rw [List.mem_append, mem_rolloutEdges,
    barrierLoop_mem (collectRollouts nodes) (collectBarriers nodes) 0
      (sorted_collectBarriers nodes) (fun t _ => Nat.zero_le t) f t]
  constructor
  · rintro (h | ⟨h1, h2, _, h4, h5⟩)
    · exact Or.inl h
    · exact Or.inr ⟨h1, h2, h4, h5⟩
  · rintro (h | ⟨h1, h2, h3, h4⟩)
    · exact Or.inl h
    · exact Or.inr ⟨h1, h2, Nat.zero_le f, h3, h4⟩

/-! ### Duplicate freedom lemmas -/

theorem rolloutPick_snd (rollouts barriers : List Nat) (age : Nat) (x : Nat × Nat)
    (h : x ∈ (if age ∈ rollouts then rolloutEdgesTo barriers age else [])) : x.2 = age := by
  by_cases hR : age ∈ rollouts
  · rw [if_pos hR] at h
    unfold rolloutEdgesTo at h
    obtain ⟨i, _, heq⟩ := List.mem_map.mp h
    rw [← heq]
  · rw [if_neg hR] at h
    exact absurd h (List.not_mem_nil x)

theorem nodup_rolloutEdgesTo (barriers : List Nat) (age : Nat) :
    (rolloutEdgesTo barriers age).Nodup := by
  unfold rolloutEdgesTo
  exact List.Nodup.map (fun a b h => congrArg Prod.fst h) (List.nodup_range' _ _)

theorem nodup_rolloutEdges (rollouts barriers : List Nat) (len : Nat) :
    (rolloutEdges rollouts barriers len).Nodup := by
  unfold rolloutEdges
  rw [List.nodup_flatMap]
  constructor
  · intro age _
    by_cases hR : age ∈ rollouts
    · rw [if_pos hR]
      exact nodup_rolloutEdgesTo barriers age
    · rw [if_neg hR]
      exact List.nodup_nil
  · have h1 : List.Pairwise (· ≠ ·) ((List.range len).reverse) :=
      List.nodup_reverse.mpr (List.nodup_range len)
    refine h1.imp ?_
    intro a b hab x hxa hxb
    exact hab ((rolloutPick_snd rollouts barriers a x hxa).symm.trans
      (rolloutPick_snd rollouts barriers b x hxb))

theorem nodup_barrierLoop (rollouts : List Nat) :
    ∀ (ts : List Nat) (start : Nat), List.Pairwise (· < ·) ts →
      (barrierLoop rollouts start ts).Nodup := by
  intro ts
  induction ts with
  | nil => intro start _; simp [barrierLoop]
  | cons target rest ih =>
    intro start hsort
    rw [barrierLoop]
    apply List.Nodup.append
    · by_cases hR : target ∈ rollouts
      · rw [if_pos hR]
        exact List.nodup_nil
      · rw [if_neg hR]
        exact List.Nodup.map (fun a b h => congrArg Prod.fst h) (List.nodup_range' _ _)
    · exact ih target hsort.of_cons
    · intro x hx1 hx2
      have h2 : x.2 ∈ rest := (barrierLoop_snd rollouts rest target x hx2).1
      have h1 : x.2 = target := by
        by_cases hR : target ∈ rollouts
        · rw [if_pos hR] at hx1
          exact absurd hx1 (List.not_mem_nil x)
        · rw [if_neg hR] at hx1
          obtain ⟨i, _, heq⟩ := List.mem_map.mp hx1
          rw [← heq]
      have h3 := (List.pairwise_cons.mp hsort).1 x.2 h2
      omega

theorem nodup_computeEdgesList (nodes : List CincinnatiPayload) :
    (computeEdgesList nodes).Nodup := by
  unfold computeEdgesList
  apply List.Nodup.append
  · exact nodup_rolloutEdges _ _ _
  · exact nodup_barrierLoop _ _ 0 (sorted_collectBarriers nodes)
  · intro x hx1 hx2
    exact (barrierLoop_snd _ _ 0 x hx2).2 (rolloutEdges_snd _ _ _ x hx1)

/-! ### Deadend filter lemmas -/

theorem filter_lt_length_mono (l : List Nat) (e1 e2 : Nat) (h : e1 ≤ e2) :
    (l.filter (fun j => j < e1)).length ≤ (l.filter (fun j => j < e2)).length :=
  (List.monotone_filter_right l (fun a ha => by
    have := of_decide_eq_true ha
    exact decide_eq_true (by omega))).length_le

theorem filter_lt_length_strict (l : List Nat) (e1 e2 : Nat) (h1 : e1 ∈ l) (h12 : e1 < e2) :
    (l.filter (fun j => j < e1)).length < (l.filter (fun j => j < e2)).length := by
  induction l with
  | nil => exact absurd h1 (List.not_mem_nil e1)
  | cons a t ih =>
    rcases List.mem_cons.mp h1 with rfl | h1t
    · rw [List.filter_cons_of_neg (by simp), List.filter_cons_of_pos (by simpa using h12)]
      rw [List.length_cons]
      exact Nat.lt_succ_of_le (filter_lt_length_mono t e1 e2 (Nat.le_of_lt h12))
    · by_cases ha : a < e1
      · rw [List.filter_cons_of_pos (by simpa using ha),
          List.filter_cons_of_pos (by simp; omega)]
        rw [List.length_cons, List.length_cons]
        exact Nat.succ_lt_succ (ih h1t)
      · by_cases hb : a < e2
        · rw [List.filter_cons_of_neg (by simpa using ha),
            List.filter_cons_of_pos (by simpa using hb)]
          rw [List.length_cons]
          exact Nat.lt_succ_of_lt (ih h1t)
        · rw [List.filter_cons_of_neg (by simpa using ha),
            List.filter_cons_of_neg (by simpa using hb)]
          exact ih h1t

theorem reindex_lt (kept : List Nat) (f t : Nat) (hf : f ∈ kept) (hft : f < t) :
    reindex kept f < reindex kept t :=
  filter_lt_length_strict kept f t hf hft

theorem filterDeadends_edges_lt (g : Graph) (h : ∀ e ∈ g.edges, e.1 < e.2) :
    ∀ e ∈ (filterDeadends g).edges, e.1 < e.2 := by
  intro e he
  simp only [filterDeadends] at he
  obtain ⟨e0, he0, hsome⟩ := List.mem_filterMap.mp he
  by_cases hk : e0.1 ∈ keptIndices g.nodes ∧ e0.2 ∈ keptIndices g.nodes
  · rw [if_pos hk] at hsome
    have heq := Option.some.inj hsome
    rw [← heq]
    exact reindex_lt _ _ _ hk.1 (h e0 he0)
  · rw [if_neg hk] at hsome
    exact absurd hsome Option.noConfusion

theorem filterDeadends_nodes_id (g : Graph) (h : ∀ n ∈ g.nodes, isDeadendNode n = false) :
    (filterDeadends g).nodes = g.nodes := by
  simp only [filterDeadends]
  exact List.filter_eq_self.mpr (fun a ha => by rw [h a ha]; rfl)

theorem filterDeadends_nodes_sub (g : Graph) :
    ∀ n ∈ (filterDeadends g).nodes, n ∈ g.nodes := by
  intro n hn
  simp only [filterDeadends] at hn
  exact (List.mem_filter.mp hn).1

/-! ### Node list lemmas -/

theorem fromMetadata_eq (releases : List Release) (updates : UpdatesJSON) (scope : GraphScope) :
    fromMetadata releases updates scope =
      .ok (filterDeadends
        { nodes := nodesOf releases updates scope
          edges := computeEdgesList (nodesOf releases updates scope) }) := rfl

theorem filterMap_enumFrom_length (scope : GraphScope) (updates : UpdatesJSON) :
    ∀ (l : List Release) (k : Nat), (∀ x ∈ l, eligibleRelease scope x = true) →
      ((List.enumFrom k l).filterMap
        (fun p => processRelease scope updates p.1 p.2)).length = l.length := by
  intro l
  induction l with
  | nil => intro k _; rfl
  | cons r t ih =>
    intro k hel
    have hsome : (processRelease scope updates k r).isSome = true := by
      rw [processRelease_isSome]
      exact hel r (List.mem_cons_self r t)
    obtain ⟨node, hnode⟩ := Option.isSome_iff_exists.mp hsome
    rw [List.enumFrom_cons]
    simp only [List.filterMap_cons, hnode]
    rw [List.length_cons, ih (k + 1) (fun x hx => hel x (List.mem_cons_of_mem r hx))]
    rfl

theorem filterMap_enumFrom_age (scope : GraphScope) (updates : UpdatesJSON) :
    ∀ (l : List Release) (k i : Nat), (∀ x ∈ l, eligibleRelease scope x = true) →
      i < l.length →
      mdLookup (((List.enumFrom k l).filterMap
          (fun p => processRelease scope updates p.1 p.2)).getD i default).metadata AGE_INDEX
        = some (toString (k + i)) := by
  intro l
  induction l with
  | nil => intro k i _ hi; exact absurd hi (by simp)
  | cons r t ih =>
    intro k i hel hi
    have hsome : (processRelease scope updates k r).isSome = true := by
      rw [processRelease_isSome]
      exact hel r (List.mem_cons_self r t)
    obtain ⟨node, hnode⟩ := Option.isSome_iff_exists.mp hsome
    rw [List.enumFrom_cons]
    simp only [List.filterMap_cons, hnode]
    cases i with
    | zero =>
      rw [List.getD_cons_zero, Nat.add_zero]
      exact processRelease_some_age scope updates k r node hnode
    | succ j =>
      rw [List.getD_cons_succ]
      have harith : k + 1 + j = k + (j + 1) := by omega
      rw [← harith]
      exact ih (k + 1) j (fun x hx => hel x (List.mem_cons_of_mem r hx))
        (by simpa using Nat.lt_of_succ_lt_succ hi)

theorem nodesOf_not_deadend (releases : List Release) (updates : UpdatesJSON)
    (scope : GraphScope) (hup : ∀ u ∈ updates.releases, u.metadata.deadend = none) :
    ∀ n ∈ nodesOf releases updates scope, isDeadendNode n = false := by
  intro n hn
  obtain ⟨p, _, hsome⟩ := List.mem_filterMap.mp hn
  have h := processRelease_some_deadend scope updates p.1 p.2 n hup hsome
  unfold isDeadendNode
  rw [h]
  rfl

theorem computeEdgesList_lt (nodes : List CincinnatiPayload) :
    ∀ e ∈ computeEdgesList nodes, e.1 < e.2 := by
  intro e he
  obtain ⟨f, t⟩ := e
  rcases (mem_computeEdgesList nodes f t).mp he with ⟨_, _, _, h⟩ | ⟨_, _, h, _⟩ <;> exact h

/-! ### Concrete inputs for witnesses and counterexamples -/

/-- Plain node with no markers. -/
def wPlain : CincinnatiPayload :=
  { version := "1", metadata := [(AGE_INDEX, "0")], payload := "x" }

/-- Node carrying only the barrier marker. -/
def wBarrierNode : CincinnatiPayload :=
  { version := "2", metadata := [(BARRIER, "true")], payload := "x" }

/-- Node carrying only the rollout marker. -/
def wRolloutNode : CincinnatiPayload :=
  { version := "3", metadata := [(ROLLOUT, "true")], payload := "x" }

/-- Node carrying both the barrier and the rollout marker. -/
def wBothNode : CincinnatiPayload :=
  { version := "4", metadata := [(BARRIER, "true"), (ROLLOUT, "true")], payload := "x" }

/-- Sample node sequence with one barrier and one rollout. -/
def wNodesRollout : List CincinnatiPayload := [wPlain, wBarrierNode, wPlain, wRolloutNode]

/-- Sample node sequence with two barriers. -/
def wNodesBarrier : List CincinnatiPayload := [wPlain, wBarrierNode, wPlain, wBarrierNode]

/-- Sample node sequence with an in-progress barrier followed by a plain one. -/
def wNodesBoth : List CincinnatiPayload := [wPlain, wBothNode, wBarrierNode]

/-- Checksum-transport scope for x86_64. -/
def cexScope : GraphScope := { basearch := "x86_64", stream := "stable", oci := false }

/-- Release whose only commit is for another architecture: ineligible. -/
def cexReleaseA : Release :=
  { version := "1.0"
    commits := [{ architecture := "aarch64", checksum := "sum-a" }]
    oci_images := none }

/-- Release with an x86_64 commit: eligible for `cexScope`. -/
def cexReleaseB : Release :=
  { version := "2.0"
    commits := [{ architecture := "x86_64", checksum := "sum-b" }]
    oci_images := none }

/-- Empty updates document. -/
def cexUpdates : UpdatesJSON := { releases := [] }

/-- Graph built from `[cexReleaseB]` alone. -/
def wG1 : Graph :=
  { nodes := [{ version := "2.0"
                metadata := [(SCHEME, "checksum"), (AGE_INDEX, "0")]
                payload := "sum-b" }]
    edges := [] }

/-- The single node of the graph built from `[cexReleaseA, cexReleaseB]`. -/
def cexNodeB : CincinnatiPayload :=
  { version := "2.0"
    metadata := [(SCHEME, "checksum"), (AGE_INDEX, "1")]
    payload := "sum-b" }

/-- Graph built from `[cexReleaseA, cexReleaseB]`: one node, carrying the
age index of its input position. -/
def wG2 : Graph := { nodes := [cexNodeB], edges := [] }

/-- Empty graph. -/
def wEmptyGraph : Graph := { nodes := [], edges := [] }

/-! ### Claim theorems -/

/-- C1: every edge `(from, to)` computed by `Graph::compute_edges` satisfies
`from < to`, and so does every edge of any graph returned by
`Graph::from_metadata`; in particular no self-edges exist. -/
theorem edges_from_lt_to (nodes : List CincinnatiPayload) (releases : List Release)
    (updates : UpdatesJSON) (scope : GraphScope) (g : Graph)
    (hg : fromMetadata releases updates scope = Except.ok g) :
    (∀ e ∈ computeEdgesList nodes, e.1 < e.2) ∧ (∀ e ∈ g.edges, e.1 < e.2) := by
  refine ⟨computeEdgesList_lt nodes, ?_⟩
  rw [fromMetadata_eq] at hg
  injection hg with hg
  rw [← hg]
  exact filterDeadends_edges_lt _ (computeEdgesList_lt _)

/-- Witness for C1 at concrete inputs: `(1, 3)` is a computed edge and its
endpoints increase. -/
theorem edges_from_lt_to_witness :
    ((1, 3) ∈ computeEdgesList wNodesRollout) ∧ (1 : Nat) < 3 :=
  ⟨by decide,
   (edges_from_lt_to wNodesRollout [cexReleaseB] cexUpdates cexScope wG1 (by rfl)).1
     (1, 3) (by decide)⟩

/-- C2: for a rollout-marked index `r` with `p` the largest barrier-marked
index strictly below it (or 0 when none exists), the computed edge set
contains exactly the edges `(i, r)` with `p ≤ i < r`. -/
theorem rollout_incoming_edges (nodes : List CincinnatiPayload) (r p : Nat)
    (hr : r ∈ collectRollouts nodes)
    (hp : (p ∈ collectBarriers nodes ∧ p < r ∧ ∀ b ∈ collectBarriers nodes, b < r → b ≤ p) ∨
      (p = 0 ∧ ∀ b ∈ collectBarriers nodes, ¬b < r)) :
    ∀ i : Nat, ((i, r) ∈ computeEdgesList nodes ↔ p ≤ i ∧ i < r) := by
  have hpe : prevBarrier (collectBarriers nodes) r = p := prevBarrier_eq _ _ _ hp
  have hrlen : r < nodes.length := ((mem_collectRollouts nodes r).mp hr).1
  intro i
  rw [mem_computeEdgesList]
  constructor
  · rintro (⟨_, _, h1, h2⟩ | ⟨_, hnr, _, _⟩)
    · rw [hpe] at h1
      exact ⟨h1, h2⟩
    · exact absurd hr hnr
  · rintro ⟨h1, h2⟩
    exact Or.inl ⟨hr, hrlen, by rw [hpe]; exact h1, h2⟩

/-- Witness for C2 at concrete inputs. -/
theorem rollout_incoming_edges_witness :
    ((2, 3) ∈ computeEdgesList wNodesRollout ↔ 1 ≤ 2 ∧ 2 < 3) :=
  rollout_incoming_edges wNodesRollout 3 1 (by decide)
    (Or.inl ⟨by decide, by decide, by decide⟩) 2

/-- C3: for a barrier-marked, not rollout-marked index `b` with `p` the
previous barrier-marked index (or 0 when none exists), the computed edge set
contains every edge `(i, b)` with `p ≤ i < b` and no edge `(i, b)` with
`i < p`. -/
theorem barrier_incoming_edges (nodes : List CincinnatiPayload) (b p : Nat)
    (hb : b ∈ collectBarriers nodes) (hnr : b ∉ collectRollouts nodes)
    (hp : (p ∈ collectBarriers nodes ∧ p < b ∧ ∀ t ∈ collectBarriers nodes, t < b → t ≤ p) ∨
      (p = 0 ∧ ∀ t ∈ collectBarriers nodes, ¬t < b)) :
    (∀ i : Nat, p ≤ i → i < b → (i, b) ∈ computeEdgesList nodes) ∧
    (∀ i : Nat, i < p → (i, b) ∉ computeEdgesList nodes) := by
  constructor
  · intro i hpi hib
    rw [mem_computeEdgesList]
    refine Or.inr ⟨hb, hnr, hib, ?_⟩
    intro t ht htb
    rcases hp with ⟨_, _, hub⟩ | ⟨rfl, hnone⟩
    · exact Nat.le_trans (hub t ht htb) hpi
    · exact absurd htb (hnone t ht)
  · intro i hip hmem
    rw [mem_computeEdgesList] at hmem
    rcases hmem with ⟨hR, _, _, _⟩ | ⟨_, _, _, hall⟩
    · exact hnr hR
    · rcases hp with ⟨hpB, hpb, _⟩ | ⟨rfl, _⟩
      · exact absurd (hall p hpB hpb) (by omega)
      · omega

/-- Witness for C3 at concrete inputs. -/
theorem barrier_incoming_edges_witness :
    ((2, 3) ∈ computeEdgesList wNodesBarrier) ∧ ((0, 3) ∉ computeEdgesList wNodesBarrier) :=
  ⟨(barrier_incoming_edges wNodesBarrier 3 1 (by decide) (by decide)
      (Or.inl ⟨by decide, by decide, by decide⟩)).1 2 (by decide) (by decide),
   (barrier_incoming_edges wNodesBarrier 3 1 (by decide) (by decide)
      (Or.inl ⟨by decide, by decide, by decide⟩)).2 0 (by decide)⟩

/-- C4: for an index `b` both barrier- and rollout-marked, the only edges
targeting `b` are the rollout-pass ones from the previous barrier `p` up to
`b`, and the next plain barrier still starts its incoming range at `b`. -/
theorem inprogress_barrier_edges (nodes : List CincinnatiPayload) (b p : Nat)
    (hbB : b ∈ collectBarriers nodes) (hbR : b ∈ collectRollouts nodes)
    (hp : (p ∈ collectBarriers nodes ∧ p < b ∧ ∀ t ∈ collectBarriers nodes, t < b → t ≤ p) ∨
      (p = 0 ∧ ∀ t ∈ collectBarriers nodes, ¬t < b)) :
    (∀ i : Nat, ((i, b) ∈ computeEdgesList nodes ↔ p ≤ i ∧ i < b)) ∧
    (∀ bn : Nat, bn ∈ collectBarriers nodes → bn ∉ collectRollouts nodes → b < bn →
      (∀ t ∈ collectBarriers nodes, b < t → bn ≤ t) →
      ∀ i : Nat, ((i, bn) ∈ computeEdgesList nodes ↔ b ≤ i ∧ i < bn)) := by
  have hpe : prevBarrier (collectBarriers nodes) b = p := prevBarrier_eq _ _ _ hp
  have hblen : b < nodes.length := ((mem_collectRollouts nodes b).mp hbR).1
  constructor
  · intro i
    rw [mem_computeEdgesList]
    constructor
    · rintro (⟨_, _, h1, h2⟩ | ⟨_, hnr, _, _⟩)
      · rw [hpe] at h1
        exact ⟨h1, h2⟩
      · exact absurd hbR hnr
    · rintro ⟨h1, h2⟩
      exact Or.inl ⟨hbR, hblen, by rw [hpe]; exact h1, h2⟩
  · intro bn hbnB hbnR hbbn hnext i
    rw [mem_computeEdgesList]
    constructor
    · rintro (⟨hR, _, _, _⟩ | ⟨_, _, hib, hall⟩)
      · exact absurd hR hbnR
      · exact ⟨hall b hbB hbbn, hib⟩
    · rintro ⟨h1, h2⟩
      refine Or.inr ⟨hbnB, hbnR, h2, ?_⟩
      intro t ht htbn
      by_cases htb : t ≤ b
      · omega
      · exact absurd htbn (by have := hnext t ht (by omega); omega)

/-- Witness for C4 at concrete inputs. -/
theorem inprogress_barrier_edges_witness :
    ((0, 1) ∈ computeEdgesList wNodesBoth ↔ 0 ≤ 0 ∧ 0 < 1) ∧
    ((1, 2) ∈ computeEdgesList wNodesBoth ↔ 1 ≤ 1 ∧ 1 < 2) :=
  ⟨(inprogress_barrier_edges wNodesBoth 1 0 (by decide) (by decide)
      (Or.inr ⟨rfl, by decide⟩)).1 0,
   (inprogress_barrier_edges wNodesBoth 1 0 (by decide) (by decide)
      (Or.inr ⟨rfl, by decide⟩)).2 2 (by decide) (by decide) (by decide) (by decide) 1⟩

/-- C5 counterexample: with an ineligible release in front, the surviving
node sits at position 0 of the graph yet carries `age_index` `"1"`, so the
claim that `age_index` always equals the node position fails. -/
theorem age_index_counterexample :
    (fromMetadata [cexReleaseA, cexReleaseB] cexUpdates cexScope).map
        (fun g => g.nodes.map (fun n => mdLookup n.metadata AGE_INDEX))
      = Except.ok [some "1"] ∧
    (fromMetadata [cexReleaseA, cexReleaseB] cexUpdates cexScope).map
        (fun g => g.nodes.length)
      = Except.ok 1 ∧
    toString (0 : Nat) ≠ "1" := by
  refine ⟨by rfl, by rfl, by decide⟩

/-- C5 (amended): when every release is scope-eligible and the updates
document marks no deadends, each node of the graph built by
`Graph::from_metadata` carries `age_index` equal to its position; in general
`age_index` records the release's position in the input list, which drifts
from the node position as soon as a release is dropped. -/
theorem age_index_matches_position (releases : List Release) (updates : UpdatesJSON)
    (scope : GraphScope) (g : Graph)
    (hel : ∀ x ∈ releases, eligibleRelease scope x = true)
    (hup : ∀ u ∈ updates.releases, u.metadata.deadend = none)
    (hg : fromMetadata releases updates scope = Except.ok g) :
    ∀ i : Nat, i < g.nodes.length →
      mdLookup (g.nodes.getD i default).metadata AGE_INDEX = some (toString i) := by
  rw [fromMetadata_eq] at hg
  injection hg with hg
  rw [← hg]
  have hid : (filterDeadends
      { nodes := nodesOf releases updates scope
        edges := computeEdgesList (nodesOf releases updates scope) }).nodes
      = nodesOf releases updates scope :=
    filterDeadends_nodes_id _ (fun n hn => nodesOf_not_deadend releases updates scope hup n hn)
  intro i hi
  rw [hid] at hi ⊢
  have hlen : (nodesOf releases updates scope).length = releases.length :=
    filterMap_enumFrom_length scope updates releases 0 hel
  have hi2 : i < releases.length := by omega
  have hage := filterMap_enumFrom_age scope updates releases 0 i hel hi2
  rw [Nat.zero_add] at hage
  exact hage

/-- Witness for the amended C5 at concrete inputs. -/
theorem age_index_matches_position_witness :
    mdLookup (wG1.nodes.getD 0 default).metadata AGE_INDEX = some (toString 0) :=
  age_index_matches_position [cexReleaseB] cexUpdates cexScope wG1 (by decide) (by decide)
    (by rfl) 0 (by decide)

/-- C6: a release that is ineligible for the scope never appears as a node:
every node of the graph originates from a different, eligible input index,
recorded in its `age_index` metadata. -/
theorem ineligible_release_absent (releases : List Release) (updates : UpdatesJSON)
    (scope : GraphScope) (g : Graph) (i : Nat) (_hi : i < releases.length)
    (hineg : eligibleRelease scope (releases.getD i default) = false)
    (hg : fromMetadata releases updates scope = Except.ok g) :
    ∀ n ∈ g.nodes, ∃ j : Nat, j < releases.length ∧ j ≠ i ∧
      eligibleRelease scope (releases.getD j default) = true ∧
      mdLookup n.metadata AGE_INDEX = some (toString j) := by
  rw [fromMetadata_eq] at hg
  injection hg with hg
  rw [← hg]
  intro n hn
  have hn0 : n ∈ nodesOf releases updates scope := filterDeadends_nodes_sub _ n hn
  obtain ⟨p, hp, hsome⟩ := List.mem_filterMap.mp hn0
  obtain ⟨j, x⟩ := p
  have hjx := List.mem_enum hp
  have hel : eligibleRelease scope x = true := by
    rw [← processRelease_isSome scope updates j x, hsome]
    rfl
  have hgd : releases.getD j default = x := by
    rw [List.getD_eq_getElem releases default hjx.1, ← hjx.2]
  refine ⟨j, hjx.1, ?_, ?_, ?_⟩
  · intro hji
    rw [hji] at hgd
    rw [hgd] at hineg
    rw [hel] at hineg
    exact Bool.noConfusion hineg
  · rw [hgd]
    exact hel
  · exact processRelease_some_age scope updates j x n hsome

/-- Witness for C6 at concrete inputs, instantiated at the surviving node. -/
theorem ineligible_release_absent_witness :
    ∃ j : Nat, j < ([cexReleaseA, cexReleaseB] : List Release).length ∧
      j ≠ 0 ∧
      eligibleRelease cexScope (([cexReleaseA, cexReleaseB] : List Release).getD j default)
        = true ∧
      mdLookup cexNodeB.metadata AGE_INDEX = some (toString j) :=
  ineligible_release_absent [cexReleaseA, cexReleaseB] cexUpdates cexScope wG2 0 (by decide)
    (by decide) (by rfl) cexNodeB (by decide)

/-- C7: `Graph::from_metadata` never returns an error: for every input it
returns `Ok` with a graph; ineligible releases are silently dropped. -/
theorem from_metadata_total (releases : List Release) (updates : UpdatesJSON)
    (scope : GraphScope) : ∃ g : Graph, fromMetadata releases updates scope = Except.ok g :=
  ⟨_, fromMetadata_eq releases updates scope⟩

/-- C8: the rollout pass targets only rollout-marked indices, the barrier
pass targets only barrier-marked indices that are not rollout-marked, and
the computed edge list holds no duplicate pair. -/
theorem compute_edges_no_duplicates (nodes : List CincinnatiPayload) :
    (∀ e ∈ rolloutEdges (collectRollouts nodes) (collectBarriers nodes) nodes.length,
      e.2 ∈ collectRollouts nodes) ∧
    (∀ e ∈ barrierLoop (collectRollouts nodes) 0 (collectBarriers nodes),
      e.2 ∈ collectBarriers nodes ∧ e.2 ∉ collectRollouts nodes) ∧
    (computeEdgesList nodes).Nodup :=
  ⟨fun e he => rolloutEdges_snd _ _ _ e he,
   fun e he => barrierLoop_snd _ _ 0 e he,
   nodup_computeEdgesList nodes⟩

/-- Witness for C8 at a concrete node sequence. -/
theorem compute_edges_no_duplicates_witness :
    (computeEdgesList wNodesBoth).Nodup :=
  (compute_edges_no_duplicates wNodesBoth).2.2

/-- C9: `gb_serve_graph` answers 400 on scope-validation failure, 404 when no
scraper matches the validated scope, and only otherwise serves the cached
graph after deadend filtering and serialization; an invalid scope never
reaches a scraper and never yields a graph body. -/
theorem serve_graph_responses (data : AppState) (query : GraphQuery) :
    ((∃ e : String, validateScope query data.scope_filter = Except.error e) →
      gbServeGraph data query = HttpResponse.badRequest) ∧
    (∀ scope : GraphScope, validateScope query data.scope_filter = Except.ok scope →
      scraperLookup data.scrapers scope = none →
      gbServeGraph data query = HttpResponse.notFound) ∧
    (∀ (scope : GraphScope) (cached : Graph),
      validateScope query data.scope_filter = Except.ok scope →
      scraperLookup data.scrapers scope = some cached →
      gbServeGraph data query =
        HttpResponse.okJson (serializeGraph (filterDeadends cached))) := by
  refine ⟨?_, ?_, ?_⟩ <;> unfold gbServeGraph
  · rintro ⟨e, he⟩
    rw [he]
  · intro scope h1 h2
    rw [h1]
    dsimp only
    rw [h2]
  · intro scope cached h1 h2
    rw [h1]
    dsimp only
    rw [h2]

/-- Server state with one configured scraper, for the C9 witness. -/
def wState : AppState :=
  { scope_filter := none, scrapers := [(cexScope, wEmptyGraph)] }

/-- Witness for C9: the three response branches at concrete requests. -/
theorem serve_graph_responses_witness :
    gbServeGraph wState { basearch := none, stream := none } = HttpResponse.badRequest ∧
    gbServeGraph wState { basearch := some "s390x", stream := some "stable" }
      = HttpResponse.notFound ∧
    gbServeGraph wState { basearch := some "x86_64", stream := some "stable" }
      = HttpResponse.okJson (serializeGraph (filterDeadends wEmptyGraph)) :=
  ⟨(serve_graph_responses wState { basearch := none, stream := none }).1 ⟨_, rfl⟩,
   (serve_graph_responses wState { basearch := some "s390x", stream := some "stable" }).2.1
     { basearch := "s390x", stream := "stable", oci := false } rfl (by rfl),
   (serve_graph_responses wState { basearch := some "x86_64", stream := some "stable" }).2.2
     cexScope wEmptyGraph rfl (by rfl)⟩

/-- C10: when several payload entries of a release match the scope, the
node's payload is the reference of the last matching entry, for both the
commit-checksum and the OCI-image branch. -/
theorem payload_last_match (scope : GraphScope) (updates : UpdatesJSON) (age : Nat)
    (entry : Release) (pre post : List Commit) (c : Commit)
    (preI postI : List OciImage) (img : OciImage) :
    (scope.oci = false → entry.commits = pre ++ c :: post →
      commitMatches scope c = true → (∀ x ∈ post, commitMatches scope x = false) →
      ∃ node : CincinnatiPayload,
        processRelease scope updates age entry = some node ∧ node.payload = c.checksum) ∧
    (scope.oci = true → entry.oci_images = some (preI ++ img :: postI) →
      ociMatches scope img = true → (∀ x ∈ postI, ociMatches scope x = false) →
      ∃ node : CincinnatiPayload,
        processRelease scope updates age entry = some node ∧ node.payload = img.digest_ref) := by
  constructor
  · intro hoci hcom hc hpost
    unfold processRelease
    rw [hoci]
    simp only [Bool.false_eq_true, if_false]
    rw [hcom, commitFold_last scope pre post c hc hpost]
    refine ⟨_, rfl, ?_⟩
    rw [augmentNode_payload]
  · intro hoci himg hc hpost
    unfold processRelease
    rw [hoci]
    simp only [if_true]
    rw [himg]
    simp only []
    rw [ociFold_last scope preI postI img hc hpost]
    refine ⟨_, rfl, ?_⟩
    rw [augmentNode_payload]

/-- Release with two matching commits, for the C10 witness. -/
def wRelTwoCommits : Release :=
  { version := "3.0"
    commits := [{ architecture := "x86_64", checksum := "first" },
                { architecture := "x86_64", checksum := "second" }]
    oci_images := none }

/-- OCI scope for the C10 witness. -/
def wScopeOci : GraphScope := { basearch := "x86_64", stream := "stable", oci := true }

/-- Release with two matching OCI images, for the C10 witness. -/
def wRelTwoImages : Release :=
  { version := "4.0"
    commits := []
    oci_images := some [{ architecture := "x86_64", digest_ref := "img-first" },
                        { architecture := "x86_64", digest_ref := "img-second" }] }

/-- Witness for C10: both branches at concrete inputs; the later matching
entry wins. -/
theorem payload_last_match_witness :
    (∃ node : CincinnatiPayload,
      processRelease cexScope cexUpdates 0 wRelTwoCommits = some node ∧
        node.payload = "second") ∧
    (∃ node : CincinnatiPayload,
      processRelease wScopeOci cexUpdates 0 wRelTwoImages = some node ∧
        node.payload = "img-second") :=
  ⟨(payload_last_match cexScope cexUpdates 0 wRelTwoCommits
      [{ architecture := "x86_64", checksum := "first" }] []
      { architecture := "x86_64", checksum := "second" } [] []
      { architecture := "", digest_ref := "" }).1 rfl rfl (by decide) (by decide),
   (payload_last_match wScopeOci cexUpdates 0 wRelTwoImages [] []
      { architecture := "", checksum := "" }
      [{ architecture := "x86_64", digest_ref := "img-first" }] []
      { architecture := "x86_64", digest_ref := "img-second" }).2 rfl rfl (by decide)
      (by decide)⟩

end Fcc
